import Mathlib

/-!
Verification of the `brack` repository's filter/transform pipeline.

The repository's core is `process_data` in `new_file.py`: a single forward
pass over a list, appending `transform_func item` to an accumulator for each
`item` accepted by `filter_func`.  The file also defines a skeleton class
`DataProcessor` whose `process` method calls `self.validate` and
`self.transform`, neither of which is defined anywhere on the class.

We embed the code shallowly:
* `process_data` is the loop itself, a left fold with an explicit
  accumulator, for pure (never-raising) callbacks;
* `process_dataE` is the same loop with callbacks that may raise, modelled
  as `Except`-valued functions, so that failure propagation can be stated;
* `DataProcessor.process` models the method, with Python attribute lookup
  on the missing `validate` / `transform` attributes raising
  `AttributeError`.
-/

namespace Brack

/-- Embedding of `process_data` from `new_file.py`:
a forward pass building `filtered_data`, appending `transform_func item`
whenever `filter_func item` holds. -/
def process_data {T U : Type} (data_list : List T) (filter_func : T → Bool)
    (transform_func : T → U) : List U :=
  data_list.foldl
    (fun filtered_data item =>
      if filter_func item then filtered_data ++ [transform_func item]
      else filtered_data)
    []

/-- The loop of `process_data`, started from an arbitrary accumulator,
produces the accumulator followed by the mapped accepted elements. -/
lemma process_data_loop {T U : Type} (data_list : List T) (filter_func : T → Bool)
    (transform_func : T → U) (acc : List U) :
    data_list.foldl
        (fun filtered_data item =>
          if filter_func item then filtered_data ++ [transform_func item]
          else filtered_data)
        acc
      = acc ++ (data_list.filter filter_func).map transform_func := by
  induction data_list generalizing acc with
  | nil => simp
  | cons x xs ih =>
    by_cases hx : filter_func x
    · simp [List.foldl_cons, List.filter_cons, hx, ih]
    · simp [List.foldl_cons, List.filter_cons, hx, ih]

/-- Characterisation: `process_data` is filter-then-map. -/
lemma process_data_eq_filter_map {T U : Type} (data_list : List T)
    (filter_func : T → Bool) (transform_func : T → U) :
    process_data data_list filter_func transform_func
      = (data_list.filter filter_func).map transform_func := by
  simpa using process_data_loop data_list filter_func transform_func []

end Brack

namespace Brack

/-- C1: the output of `process_data` is exactly the transformed accepted
elements in input order: its length is the number of elements accepted by
`filter_func`, and its `i`-th entry is `transform_func` applied to the
`i`-th accepted element of the input (in input order). -/
theorem process_data_spec {T U : Type} (data : List T) (p : T → Bool) (t : T → U) :
    (process_data data p t).length = (data.filter p).length ∧
      ∀ i : Nat, (process_data data p t)[i]? = ((data.filter p)[i]?).map t := by
  rw [process_data_eq_filter_map]
  refine ⟨List.length_map _ _, fun i => ?_⟩
  exact List.getElem?_map t _ i

/-- C2: with a predicate that accepts every element of the input and a
transform that is the identity, `process_data` returns the input sequence
unchanged. -/
theorem process_data_identity {T : Type} (data : List T) (p : T → Bool) (t : T → T)
    (hp : ∀ x ∈ data, p x = true) (ht : ∀ x, t x = x) :
    process_data data p t = data := by
  rw [process_data_eq_filter_map, List.filter_eq_self.mpr hp]
  calc data.map t = data.map id := List.map_congr_left fun x _ => ht x
    _ = data := List.map_id data

/-- C2 witness: the always-true predicate and the identity transform on
`[3, 1, 4]`. -/
theorem process_data_identity_witness :
    process_data [3, 1, 4] (fun _ => true) (fun x : Nat => x) = [3, 1, 4] :=
  process_data_identity [3, 1, 4] (fun _ => true) (fun x => x)
    (by decide) (fun _ => rfl)

/-- C3: with a predicate that rejects every element of the input,
`process_data` returns the empty sequence (a genuine empty list, never an
absent value), for every transform. -/
theorem process_data_all_rejected {T U : Type} (data : List T) (p : T → Bool)
    (t : T → U) (hp : ∀ x ∈ data, p x = false) :
    process_data data p t = [] := by
  rw [process_data_eq_filter_map]
  have : data.filter p = [] := List.filter_eq_nil_iff.mpr (by simpa using hp)
  rw [this, List.map_nil]

/-- C3 witness: the always-false predicate on `[7, 8]` with a transform. -/
theorem process_data_all_rejected_witness :
    process_data [7, 8] (fun _ => false) (fun x : Nat => x + 1) = [] :=
  process_data_all_rejected [7, 8] (fun _ => false) (fun x => x + 1) (by decide)

/-- C4: on the empty input sequence, `process_data` returns the empty
sequence for every predicate and every transform. -/
theorem process_data_empty {T U : Type} (p : T → Bool) (t : T → U) :
    process_data [] p t = [] := rfl

/-- C8: on `[1,2,3,4,5]` with the evenness predicate and multiplication by
10, `process_data` returns `[20, 40]`. -/
theorem process_data_concrete :
    process_data [1, 2, 3, 4, 5] (fun x => x % 2 == 0) (fun x => x * 10) = [20, 40] := by
  decide

/-- Embedding of `process_data` with fallible callbacks: `filter_func` and
`transform_func` may raise, modelled as `Except`-valued functions.  The
loop is the same forward pass with an accumulator; a raised error aborts
the fold immediately (the `Except` bind short-circuits), exactly as an
uncaught Python exception aborts the loop. -/
def process_dataE {T U E : Type} (data_list : List T) (filter_func : T → Except E Bool)
    (transform_func : T → Except E U) : Except E (List U) :=
  data_list.foldlM
    (fun filtered_data item => do
      if ← filter_func item then
        let transformed ← transform_func item
        pure (filtered_data ++ [transformed])
      else
        pure filtered_data)
    []

/-- The loop body of `process_dataE`, named for reasoning. -/
def process_dataE_step {T U E : Type} (filter_func : T → Except E Bool)
    (transform_func : T → Except E U) (filtered_data : List U) (item : T) :
    Except E (List U) := do
  if ← filter_func item then
    let transformed ← transform_func item
    pure (filtered_data ++ [transformed])
  else
    pure filtered_data

/-- `process_dataE` is the fold of its loop body from the empty accumulator. -/
lemma process_dataE_def {T U E : Type} (data_list : List T)
    (filter_func : T → Except E Bool) (transform_func : T → Except E U) :
    process_dataE data_list filter_func transform_func
      = data_list.foldlM (process_dataE_step filter_func transform_func) [] := rfl

/-- Bind on `Except` of a success passes the value on. -/
lemma except_bind_ok {A B E : Type} (a : A) (g : A → Except E B) :
    (Except.ok a : Except E A) >>= g = g a := rfl

/-- Bind on `Except` of an error short-circuits. -/
lemma except_bind_error {A B E : Type} (e : E) (g : A → Except E B) :
    (Except.error e : Except E A) >>= g = Except.error e := rfl

/-- On `Except`, `pure` is `Except.ok`. -/
lemma except_pure_eq {A E : Type} (a : A) :
    (pure a : Except E A) = Except.ok a := rfl

/-- An element for which the callbacks do not raise: either the filter
returns `false`, or it returns `true` and the transform returns a value. -/
def callback_ok {T U E : Type} (f : T → Except E Bool) (t : T → Except E U) (x : T) :
    Prop :=
  f x = .ok false ∨ (f x = .ok true ∧ ∃ u, t x = .ok u)

/-- Unfolding the fallible loop at an element whose filter call raises. -/
lemma foldlM_step_filter_error {T U E : Type} {f : T → Except E Bool}
    {t : T → Except E U} {x : T} {e : E} (hf : f x = .error e)
    (xs : List T) (acc : List U) :
    (x :: xs).foldlM (process_dataE_step f t) acc = .error e := by
  simp [List.foldlM_cons, process_dataE_step, hf, except_bind_error]

/-- Unfolding the fallible loop at a rejected element. -/
lemma foldlM_step_false {T U E : Type} {f : T → Except E Bool}
    {t : T → Except E U} {x : T} (hf : f x = .ok false)
    (xs : List T) (acc : List U) :
    (x :: xs).foldlM (process_dataE_step f t) acc
      = xs.foldlM (process_dataE_step f t) acc := by
  simp [List.foldlM_cons, process_dataE_step, hf, except_bind_ok, except_pure_eq]

/-- Unfolding the fallible loop at an accepted element whose transform
raises. -/
lemma foldlM_step_transform_error {T U E : Type} {f : T → Except E Bool}
    {t : T → Except E U} {x : T} {e : E} (hf : f x = .ok true)
    (ht : t x = .error e) (xs : List T) (acc : List U) :
    (x :: xs).foldlM (process_dataE_step f t) acc = .error e := by
  simp [List.foldlM_cons, process_dataE_step, hf, ht, except_bind_ok, except_bind_error]

/-- Unfolding the fallible loop at an accepted element whose transform
returns a value. -/
lemma foldlM_step_true_ok {T U E : Type} {f : T → Except E Bool}
    {t : T → Except E U} {x : T} {u : U} (hf : f x = .ok true)
    (ht : t x = .ok u) (xs : List T) (acc : List U) :
    (x :: xs).foldlM (process_dataE_step f t) acc
      = xs.foldlM (process_dataE_step f t) (acc ++ [u]) := by
  simp [List.foldlM_cons, process_dataE_step, hf, ht, except_bind_ok, except_pure_eq]

/-- When every element's callbacks succeed, the fallible loop returns a
value from any starting accumulator. -/
lemma foldlM_ok_of_callback_ok {T U E : Type} {f : T → Except E Bool}
    {t : T → Except E U} (data : List T) (h : ∀ x ∈ data, callback_ok f t x) :
    ∀ acc : List U, ∃ out, data.foldlM (process_dataE_step f t) acc = .ok out := by
  induction data with
  | nil => exact fun acc => ⟨acc, rfl⟩
  | cons x xs ih =>
    intro acc
    rcases h x (List.mem_cons_self x xs) with hx | ⟨hx, u, hu⟩
    · rw [foldlM_step_false hx]
      exact ih (fun y hy => h y (List.mem_cons_of_mem x hy)) acc
    · rw [foldlM_step_true_ok hx hu]
      exact ih (fun y hy => h y (List.mem_cons_of_mem x hy)) (acc ++ [u])

/-- The fallible loop reports the error of the first failing element,
regardless of the accumulator reached so far. -/
lemma foldlM_error_at_first_failure {T U E : Type} {f : T → Except E Bool}
    {t : T → Except E U} {item : T} {e : E}
    (hitem : f item = .error e ∨ (f item = .ok true ∧ t item = .error e)) :
    ∀ (pre : List T), (∀ y ∈ pre, callback_ok f t y) → ∀ (post : List T) (acc : List U),
      (pre ++ item :: post).foldlM (process_dataE_step f t) acc = .error e := by
  intro pre
  induction pre with
  | nil =>
    intro _ post acc
    rcases hitem with hf | ⟨hf, ht⟩
    · exact foldlM_step_filter_error hf post acc
    · exact foldlM_step_transform_error hf ht post acc
  | cons y ys ih =>
    intro hpre post acc
    rcases hpre y (List.mem_cons_self y ys) with hy | ⟨hy, u, hu⟩
    · rw [List.cons_append, foldlM_step_false hy]
      exact ih (fun z hz => hpre z (List.mem_cons_of_mem y hz)) post acc
    · rw [List.cons_append, foldlM_step_true_ok hy hu]
      exact ih (fun z hz => hpre z (List.mem_cons_of_mem y hz)) post (acc ++ [u])

/-- C5: the transform is applied only to accepted elements: whenever the
filter returns a Boolean on every element and the transform returns a
value on every accepted element, the whole call succeeds — even when the
transform would raise on some rejected element. -/
theorem process_dataE_ok_of_transform_ok_on_accepted {T U E : Type}
    (data : List T) (f : T → Except E Bool) (t : T → Except E U)
    (hf : ∀ x ∈ data, ∃ b, f x = .ok b)
    (ht : ∀ x ∈ data, f x = .ok true → ∃ u, t x = .ok u) :
    ∃ out, process_dataE data f t = .ok out := by
  rw [process_dataE_def]
  refine foldlM_ok_of_callback_ok data (fun x hx => ?_) []
  rcases hf x hx with ⟨b, hb⟩
  cases b with
  | false => exact Or.inl hb
  | true => exact Or.inr ⟨hb, ht x hx hb⟩

/-- C5 witness: on `[1, 2]` with an evenness filter and a transform that
raises on every odd element, the call succeeds — the transform is never
applied to the rejected element `1`. -/
theorem process_dataE_ok_of_transform_ok_on_accepted_witness :
    ∃ out, process_dataE [1, 2]
        (fun x : Nat => Except.ok (x % 2 == 0))
        (fun x : Nat =>
          if x % 2 == 0 then Except.ok (x * 10) else Except.error "odd")
      = Except.ok out := by
  refine process_dataE_ok_of_transform_ok_on_accepted [1, 2] _ _ ?_ ?_
  · intro x _
    exact ⟨x % 2 == 0, rfl⟩
  · intro x hx hfx
    fin_cases hx
    · simp at hfx
    · exact ⟨20, rfl⟩

/-- C6: if the filter or the transform raises on some element while the
callbacks succeed on all earlier elements, the whole call reports exactly
that error: no partial output sequence is returned. -/
theorem process_dataE_error_propagates {T U E : Type}
    (pre post : List T) (item : T) (f : T → Except E Bool) (t : T → Except E U)
    (e : E) (hpre : ∀ y ∈ pre, callback_ok f t y)
    (hitem : f item = .error e ∨ (f item = .ok true ∧ t item = .error e)) :
    process_dataE (pre ++ item :: post) f t = .error e := by
  rw [process_dataE_def]
  exact foldlM_error_at_first_failure hitem pre hpre post []

/-- C6 witness: on `[1, 2, 3, 4]` with an evenness filter, a transform
raising on the second accepted element `4` makes the whole call raise
that error, with no output list produced. -/
theorem process_dataE_error_propagates_witness :
    process_dataE [1, 2, 3, 4]
        (fun x : Nat => Except.ok (x % 2 == 0))
        (fun x : Nat => if x == 4 then Except.error "boom" else Except.ok (x * 10))
      = Except.error "boom" := by
  refine process_dataE_error_propagates [1, 2, 3] [] 4 _ _ "boom" ?_ ?_
  · intro y hy
    fin_cases hy
    · exact Or.inl rfl
    · exact Or.inr ⟨rfl, 20, rfl⟩
    · exact Or.inl rfl
  · exact Or.inr ⟨rfl, rfl⟩

/-- Python errors the embedded class can raise.  `attributeError name`
models `AttributeError` from looking up a missing attribute `name`. -/
inductive PyErr where
  | attributeError (attr : String)
deriving DecidableEq

/-- Embedding of the `DataProcessor` class state from `new_file.py`:
`__init__` stores the given `config` and sets `results` to a fresh empty
list. -/
structure DataProcessor (C R : Type) where
  config : C
  results : List R
deriving DecidableEq

/-- Embedding of `DataProcessor.__init__`: stores `config`, starts with an
empty `results` list. -/
def DataProcessor.init {C R : Type} (config : C) : DataProcessor C R :=
  { config := config, results := [] }

/-- Attribute lookup of `validate` on a `DataProcessor` instance.  The
class body defines only `__init__` and `process`, and `__init__` sets only
`config` and `results`, so `self.validate` is undefined and the lookup
raises `AttributeError`. -/
def DataProcessor.getattr_validate (T : Type) {C R : Type}
    (_self : DataProcessor C R) : Except PyErr (T → Bool) :=
  .error (.attributeError "validate")

/-- Attribute lookup of `transform` on a `DataProcessor` instance; like
`validate`, it is defined nowhere on the class, so the lookup raises
`AttributeError`. -/
def DataProcessor.getattr_transform (T : Type) {C R : Type}
    (_self : DataProcessor C R) : Except PyErr (T → R) :=
  .error (.attributeError "transform")

/-- Embedding of `DataProcessor.process`: a forward pass over `data`; each
iteration looks up `self.validate`, calls it, and on acceptance looks up
`self.transform` and appends its result to `self.results`.  Errors carry
the instance state at the moment the exception escapes; normal completion
returns the final state together with Python's implicit `None` (here
`Unit`). -/
def DataProcessor.process_step {C R T : Type} (s : DataProcessor C R) (item : T) :
    Except (PyErr × DataProcessor C R) (DataProcessor C R) :=
  match s.getattr_validate T with
  | .error e => .error (e, s)
  | .ok validate =>
    if validate item then
      match s.getattr_transform T with
      | .error e => .error (e, s)
      | .ok transform =>
        .ok { s with results := s.results ++ [transform item] }
    else .ok s

/-- Embedding of the `process` method itself as the fold of its loop body. -/
def DataProcessor.process {C R T : Type} (self : DataProcessor C R)
    (data : List T) : Except (PyErr × DataProcessor C R) (DataProcessor C R × Unit) :=
  (data.foldlM DataProcessor.process_step self).map (fun s => (s, ()))

/-- C10: `DataProcessor.process` hits the undefined `self.validate` on any
non-empty input: it raises `AttributeError` for `validate` with
`self.results` (indeed the whole instance) unchanged; on the empty input it
returns `None` with the instance unchanged. -/
theorem dataProcessor_process_spec {C R T : Type} (self : DataProcessor C R)
    (data : List T) :
    (data = [] → self.process data = .ok (self, ())) ∧
      (data ≠ [] →
        self.process data = .error (.attributeError "validate", self)) := by
  constructor
  · intro h
    subst h
    rfl
  · intro h
    match data, h with
    | x :: xs, _ =>
      simp [DataProcessor.process, List.foldlM_cons, DataProcessor.process_step,
        DataProcessor.getattr_validate, except_bind_error, Except.map]

/-- C10 witness: a concrete instance, run on the empty list and on `[1]`. -/
theorem dataProcessor_process_spec_witness :
    DataProcessor.process (DataProcessor.init 0 : DataProcessor Nat Nat) ([] : List Nat)
        = .ok (DataProcessor.init 0, ()) ∧
      DataProcessor.process (DataProcessor.init 0 : DataProcessor Nat Nat) [1]
        = .error (.attributeError "validate", DataProcessor.init 0) :=
  ⟨(dataProcessor_process_spec (DataProcessor.init 0) []).1 rfl,
    (dataProcessor_process_spec (DataProcessor.init 0) [1]).2 (List.cons_ne_nil 1 [])⟩

/-- C9: `process_data` is a homomorphism over concatenation: processing
`xs ++ ys` gives the processing of `xs` followed by the processing of
`ys`, for every predicate and transform. -/
theorem process_data_append {T U : Type} (xs ys : List T) (p : T → Bool) (t : T → U) :
    process_data (xs ++ ys) p t = process_data xs p t ++ process_data ys p t := by
  simp [process_data_eq_filter_map, List.filter_append]

end Brack
